import Mathlib

/-!
Shallow embedding of `MK_script_docx_to_pdf_2.1.py`, a batch DOCX-to-PDF
converter driving Microsoft Word over COM, together with proofs about the
behaviour its specification describes.

File names are modelled as lists of characters; a path is a directory part
plus a base name (`os.path.join(base_dir, name)` keeps the two parts intact
and `os.path.basename` recovers the base name, so the pair is a faithful
rendering of the joined strings the script manipulates).

External effects (COM calls, console prints, `sys.exit`) are modelled as
explicit event / output-line traces, with an environment choosing where the
external world raises an exception.
-/

abbrev Name := List Char

/-- Name lowering, modelling `os.path.normcase` on Windows, which lowercases
the string before `fnmatch` comparison (the script is Windows-only: pywin32). -/
def normcase (n : Name) : Name := n.map Char.toLower

/-- Path as produced by `os.path.join(base_dir, name)`: directory part plus
base name.  `os.path.basename` returns `.base`. -/
structure FsPath where
  dir : Name
  base : Name
deriving DecidableEq, Repr

/-- Wildcard matcher for `fnmatch`-style patterns built from literal
characters and `*` (the only construct in the script's pattern `*.docx`):
`*` matches any (possibly empty) run of characters. -/
def globMatch : List Char → List Char → Bool
  | [], s => s.isEmpty
  | p :: ps, s =>
      if p == '*' then s.tails.any (fun t => globMatch ps t)
      else
        match s with
        | [] => false
        | c :: cs => p == c && globMatch ps cs

/-- Model of `glob.glob(os.path.join(base_dir, pattern))` for a directory
whose entries are `entries`: drop hidden names (leading dot, because the
pattern does not itself start with a dot), keep the names that `fnmatch` the
pattern after `normcase` on both sides, and return them joined to `dir`. -/
def globGlob (dir : Name) (pattern : Name) (entries : List Name) : List FsPath :=
  ((entries.filter (fun n => !(['.'].isPrefixOf n))).filter
      (fun n => globMatch (normcase pattern) (normcase n))).map
    (fun n => ⟨dir, n⟩)

/-- Model of `list_docx_files` (source lines 50-59): glob `*.docx` in the
folder, excluding temp files whose base name starts with `~$`. -/
def list_docx_files (dir : Name) (entries : List Name) : List FsPath :=
  (globGlob dir "*.docx".toList entries).filter
    (fun f => !("~$".toList.isPrefixOf f.base))

/-- Model of `os.path.splitext` applied to a joined path, acting on the base
name (CPython splits at the last dot after the last separator, provided the
characters before that dot within the base name are not all dots). -/
def splitext (base : Name) : Name × Name :=
  match base.reverse.findIdx? (· = '.') with
  | none => (base, [])
  | some j =>
      let dotPos := base.length - 1 - j
      if (base.take dotPos).any (· ≠ '.') then (base.take dotPos, base.drop dotPos)
      else (base, [])

/-- Model of `os.path.splitext(docx_path)[0] + ".pdf"` (source line 97). -/
def pdfPathOf (p : FsPath) : FsPath :=
  ⟨p.dir, (splitext p.base).1 ++ ".pdf".toList⟩

example : list_docx_files "d".toList ["a.docx".toList, "~$a.docx".toList, "b.txt".toList]
    = [⟨"d".toList, "a.docx".toList⟩] := by decide

example : list_docx_files "d".toList [".notes.docx".toList] = [] := by decide

example : list_docx_files "d".toList ["A.DOCX".toList] = [⟨"d".toList, "A.DOCX".toList⟩] := by
  decide

example : pdfPathOf ⟨"d".toList, "a.b.docx".toList⟩ = ⟨"d".toList, "a.b.pdf".toList⟩ := by
  decide

example : splitext ".docx".toList = (".docx".toList, []) := by decide

/-!
Model of the progress computation `percent = int(index / total * 100)`
(source lines 118 and 122).  Python evaluates `index / total` as a
correctly-rounded IEEE-754 binary64 division, multiplies by the exactly
representable `100` with correct rounding, and `int` truncates toward zero.
We model a binary64 value as the exact rational it denotes and rounding as
round-to-nearest, ties-to-even onto 53 significant bits (exponent range is
unbounded in the model; all values arising here are far inside the normal
range, so this agrees with IEEE-754 binary64).
-/

/-- Fueled floor of log2 on naturals (structural recursion so that the
kernel can evaluate it): with fuel at least `n`, `log2fuel fuel n` is
the floor of the base-2 logarithm of `n` for `n ≥ 1`. -/
def log2fuel : ℕ → ℕ → ℕ
  | 0, _ => 0
  | f + 1, n => if 2 ≤ n then log2fuel f (n / 2) + 1 else 0

/-- Floor of the base-2 logarithm of a natural number (0 for inputs 0, 1). -/
def log2N (n : ℕ) : ℕ := log2fuel n n

/-- Round the fraction `a / b` to the nearest integer, ties to even. -/
def rndDiv (a b : ℕ) : ℕ :=
  let q := a / b
  let r := a % b
  if 2 * r < b then q
  else if b < 2 * r then q + 1
  else if q % 2 = 0 then q else q + 1

/-- Round the fraction `a / b` (both positive) to the nearest IEEE-754
binary64 value, returned as a dyadic pair `(m, d)` denoting `m * 2 ^ d`
with `m` the 53-bit significand. -/
def flFrac (a b : ℕ) : ℕ × ℤ :=
  if a = 0 ∨ b = 0 then (0, 0)
  else
    let s := log2N b + 1
    let e : ℤ := (log2N (a * 2 ^ s / b) : ℤ) - s
    let shift : ℤ := e - 52
    if shift ≤ 0 then (rndDiv (a * 2 ^ (-shift).toNat) b, shift)
    else (rndDiv a (b * 2 ^ shift.toNat), shift)

/-- Binary64 multiplication of the dyadic value `m * 2 ^ d` by the exactly
representable constant `100`, rounding the exact product back to 53 bits. -/
def flMul100 (md : ℕ × ℤ) : ℕ × ℤ :=
  if 0 ≤ md.2 then flFrac (md.1 * 100 * 2 ^ md.2.toNat) 1
  else flFrac (md.1 * 100) (2 ^ (-md.2).toNat)

/-- Python's `int()` on a nonnegative dyadic value: truncation. -/
def dyadicFloor (md : ℕ × ℤ) : ℕ :=
  if 0 ≤ md.2 then md.1 * 2 ^ md.2.toNat else md.1 / 2 ^ (-md.2).toNat

/-- Model of `percent = int(index / total * 100)` (source lines 118, 122):
binary64 division of the two integers, binary64 multiplication by 100,
truncation toward zero by `int()`. -/
def pyPercent (index total : ℕ) : ℕ :=
  dyadicFloor (flMul100 (flFrac index total))

example : pyPercent 29 50 = 57 := by decide
example : pyPercent 1 3 = 33 := by decide
example : pyPercent 3 3 = 100 := by decide
example : pyPercent 29 100 = 28 := by decide

/-!
Model of the conversion run (`convert_all_docx_in_folder`, source lines
62-138, and `ensure_pywin32`, source lines 9-47).

External calls are recorded as an event trace, console prints as a list of
structured output lines.  The environment supplies, for each job index, the
first Word call of that job that raises (with its message), and whether the
pywin32 import / installation steps succeed.
-/

/-- Steps of one conversion job at which the external engine can raise:
`Documents.Open` (line 103), `ExportAsFixedFormat` (line 108),
`Close` (line 116). -/
inductive Step
  | openDoc
  | exportDoc
  | closeDoc
deriving DecidableEq, Repr

/-- Per-job environment: `none` means open, export and close all succeed;
`some (st, msg)` means the call at step `st` raises an exception rendered
as `msg` (caught by the handler at line 121). -/
abbrev JobEnv := ℕ → Option (Step × Name)

/-- Environment for `ensure_pywin32`: whether the initial import succeeds,
whether `pip install pywin32` succeeds, whether the import after
installation succeeds, and the error texts for the two failures. -/
structure PyEnv where
  importOk : Bool
  installOk : Bool
  importAfterOk : Bool
  errInstall : Name
  errImport : Name

/-- External calls made by the script, in order. -/
inductive Event
  | coInit
  | dispatchWord
  | openCall (idx : ℕ) (file : FsPath) (ok : Bool)
  | exportCall (idx : ℕ) (pdf : FsPath) (ok : Bool)
  | closeCall (idx : ℕ) (ok : Bool)
  | quitWord
  | coUninit
deriving DecidableEq, Repr

/-- Console output, one constructor per print site of the script. -/
inductive OutLine
  | noFilesFound (dir : Name)
  | filesHeader
  | oneFileFound (base : Name)
  | fileItem (base : Name)
  | totalFiles (n : ℕ)
  | pywinMissing
  | pywinInstallFailed (err : Name)
  | pywinInstalled
  | pywinImportFailed (err : Name)
  | startingConversion
  | jobHeader (idx total : ℕ) (docxBase pdfBase : Name)
  | statusOK (percent : ℕ)
  | statusERROR (percent : ℕ)
  | errorDetail (base : Name) (msg : Name)
  | allFinished
  | createdPdf (base : Name)
  | pdfsNextToDocx
  | pressEnter
deriving DecidableEq, Repr

/-- Model of `ensure_pywin32` (source lines 9-47): `.ok lines` returns the
modules after printing `lines`; `.error lines` prints `lines`, waits for
Enter and calls `sys.exit(1)`. -/
def ensure_pywin32 (pe : PyEnv) : Except (List OutLine) (List OutLine) :=
  if pe.importOk then .ok []
  else if !pe.installOk then
    .error [.pywinMissing, .pywinInstallFailed pe.errInstall, .pressEnter]
  else if pe.importAfterOk then .ok [.pywinMissing, .pywinInstalled]
  else
    .error [.pywinMissing, .pywinInstalled, .pywinImportFailed pe.errImport, .pressEnter]

/-- One iteration of the conversion loop (source lines 95-125) for job
number `idx` (1-based) on file `p`: returns the engine calls made, the
lines printed, and whether the job succeeded. -/
def runJob (idx total : ℕ) (p : FsPath) (je : Option (Step × Name)) :
    List Event × List OutLine × Bool :=
  let pdf := pdfPathOf p
  let hdr := [OutLine.jobHeader idx total p.base pdf.base]
  match je with
  | none =>
      ([.openCall idx p true, .exportCall idx pdf true, .closeCall idx true],
       hdr ++ [.statusOK (pyPercent idx total)], true)
  | some (.openDoc, msg) =>
      ([.openCall idx p false],
       hdr ++ [.statusERROR (pyPercent idx total), .errorDetail p.base msg], false)
  | some (.exportDoc, msg) =>
      ([.openCall idx p true, .exportCall idx pdf false],
       hdr ++ [.statusERROR (pyPercent idx total), .errorDetail p.base msg], false)
  | some (.closeDoc, msg) =>
      ([.openCall idx p true, .exportCall idx pdf true, .closeCall idx false],
       hdr ++ [.statusERROR (pyPercent idx total), .errorDetail p.base msg], false)

/-- Result of running the loop over a list of files. -/
structure JobsOut where
  events : List Event
  output : List OutLine
  oks : List Bool
deriving DecidableEq, Repr

/-- The conversion loop (`for index, docx_path in enumerate(docx_files,
start=1)`, source line 95), starting at job number `idx`. -/
def runJobs (total : ℕ) (env : JobEnv) : ℕ → List FsPath → JobsOut
  | _, [] => ⟨[], [], []⟩
  | idx, p :: ps =>
      let r := runJob idx total p (env idx)
      let rest := runJobs total env (idx + 1) ps
      ⟨r.1 ++ rest.events, r.2.1 ++ rest.output, r.2.2 :: rest.oks⟩

/-- Result of a whole run: console output, engine-call trace, process exit
code (`sys.exit(1)` gives 1, normal completion gives 0), and the per-job
success flags. -/
structure RunResult where
  output : List OutLine
  events : List Event
  exitCode : ℕ
  oks : List Bool
deriving DecidableEq, Repr

/-- The pre-flight file listing (source lines 77-83). -/
def listingLines (files : List FsPath) : List OutLine :=
  OutLine.filesHeader ::
    (match files with
     | [f] => [OutLine.oneFileFound f.base]
     | _ => files.map (fun f => OutLine.fileItem f.base) ++ [OutLine.totalFiles files.length])

/-- The final summary (source lines 131-138). -/
def summaryLines (files : List FsPath) : List OutLine :=
  OutLine.allFinished ::
    (match files with
     | [f] => [OutLine.createdPdf (pdfPathOf f).base]
     | _ => [OutLine.pdfsNextToDocx]) ++ [OutLine.pressEnter]

/-- Model of `convert_all_docx_in_folder` (source lines 62-138): discover
the files; if none, report and return; otherwise list them, bootstrap
pywin32 (fatal on failure), initialize COM, start Word, convert each file
in order with per-job exception handling, and unconditionally quit Word and
uninitialize COM before the summary. -/
def convert_all_docx_in_folder (dir : Name) (entries : List Name) (pe : PyEnv)
    (env : JobEnv) : RunResult :=
  let files := list_docx_files dir entries
  match files with
  | [] => ⟨[.noFilesFound dir, .pressEnter], [], 0, []⟩
  | _ :: _ =>
      match ensure_pywin32 pe with
      | .error lns => ⟨listingLines files ++ lns, [], 1, []⟩
      | .ok lns =>
          let jr := runJobs files.length env 1 files
          ⟨listingLines files ++ lns ++ [.startingConversion] ++ jr.output
             ++ summaryLines files,
           [.coInit, .dispatchWord] ++ jr.events ++ [.quitWord, .coUninit],
           0, jr.oks⟩

/-- Whether the pywin32 bootstrap succeeds in environment `pe`. -/
def pywinOK (pe : PyEnv) : Bool :=
  pe.importOk || (pe.installOk && pe.importAfterOk)

/-- The job index an engine call belongs to (`none` for the run-level
calls `CoInitialize`, `DispatchEx`, `Quit`, `CoUninitialize`). -/
def eventIdx : Event → Option ℕ
  | .openCall i _ _ => some i
  | .exportCall i _ _ => some i
  | .closeCall i _ => some i
  | _ => none

/-- The engine calls belonging to job `j`. -/
def eventsFor (j : ℕ) (evs : List Event) : List Event :=
  evs.filter (fun e => eventIdx e == some j)

/-- Output lines produced by the final-summary block (source lines
131-138). -/
def isSummaryLine : OutLine → Bool
  | .allFinished => true
  | .createdPdf _ => true
  | .pdfsNextToDocx => true
  | _ => false

/-- The condition under which discovery keeps a directory entry: its
lowercased name ends with `.docx`, it is not hidden (leading dot), and it
is not an Office lock file (leading `~$`). -/
def discovered (n : Name) : Bool :=
  decide (".docx".toList <:+ normcase n) && !(['.'].isPrefixOf n)
    && !("~$".toList.isPrefixOf n)

/-
Helper lemmas about the glob matcher: on a pattern `'*' :: lit` whose tail
is literal (no `*`), matching is exactly the suffix test.
-/

theorem globMatch_literal (lit : List Char) (hl : lit.all (fun c => !(c == '*')) = true) :
    ∀ s, globMatch lit s = decide (lit = s) := by
  induction lit with
  | nil =>
      intro s
      cases s <;> simp [globMatch]
  | cons p ps ih =>
      intro s
      rw [List.all_cons, Bool.and_eq_true] at hl
      have hp : (p == '*') = false := by
        cases hpc : (p == '*') <;> simp_all
      have hps := ih hl.2
      cases s with
      | nil => simp [globMatch, hp]
      | cons c cs =>
          simp only [globMatch, hp, Bool.false_eq_true, if_false, hps]
          by_cases hc : p = c
          · subst hc
            by_cases hcs : ps = cs <;> simp [hcs]
          · simp [hc, beq_eq_false_iff_ne, hc]

theorem globMatch_star (lit : List Char) (hl : lit.all (fun c => !(c == '*')) = true)
    (s : List Char) : globMatch ('*' :: lit) s = decide (lit <:+ s) := by
  have : globMatch ('*' :: lit) s = s.tails.any (fun t => globMatch lit t) := by
    simp [globMatch]
  rw [this]
  by_cases hsuf : lit <:+ s
  · have hmem : lit ∈ s.tails := (List.mem_tails _ _).mpr hsuf
    have : s.tails.any (fun t => globMatch lit t) = true :=
      List.any_eq_true.mpr ⟨lit, hmem, by rw [globMatch_literal lit hl]; simp⟩
    simp [this, hsuf]
  · have : s.tails.any (fun t => globMatch lit t) = false := by
      rw [List.any_eq_false]
      intro t ht
      rw [globMatch_literal lit hl]
      simp only [decide_eq_true_eq]
      intro he
      exact hsuf (he ▸ (List.mem_tails _ _).mp ht)
    simp [this, hsuf]

/-
Helper lemmas about the conversion loop.
-/

theorem runJob_eventIdx (idx total : ℕ) (p : FsPath) (je : Option (Step × Name)) :
    ∀ e ∈ (runJob idx total p je).1, eventIdx e = some idx := by
  rcases je with _ | ⟨st, msg⟩
  · intro e he
    fin_cases he <;> rfl
  · cases st <;>
      (intro e he
       fin_cases he <;> rfl)

theorem eventsFor_runJob_self (idx total : ℕ) (p : FsPath) (je : Option (Step × Name)) :
    eventsFor idx (runJob idx total p je).1 = (runJob idx total p je).1 := by
  apply List.filter_eq_self.mpr
  intro e he
  rw [runJob_eventIdx idx total p je e he]
  simp

theorem eventsFor_runJob_ne (j idx total : ℕ) (hne : j ≠ idx) (p : FsPath)
    (je : Option (Step × Name)) : eventsFor j (runJob idx total p je).1 = [] := by
  apply List.filter_eq_nil_iff.mpr
  intro e he
  rw [runJob_eventIdx idx total p je e he]
  simp [Ne.symm hne]

theorem eventsFor_append (j : ℕ) (l₁ l₂ : List Event) :
    eventsFor j (l₁ ++ l₂) = eventsFor j l₁ ++ eventsFor j l₂ := by
  simp [eventsFor]

theorem eventsFor_runJobs_lt (total : ℕ) (env : JobEnv) (j : ℕ) :
    ∀ (ps : List FsPath) (i : ℕ), j < i →
      eventsFor j (runJobs total env i ps).events = [] := by
  intro ps
  induction ps with
  | nil => intro i _; simp [runJobs, eventsFor]
  | cons p ps ih =>
      intro i hij
      simp only [runJobs]
      rw [eventsFor_append, eventsFor_runJob_ne j i total (Nat.ne_of_lt hij) p (env i),
        ih (i + 1) (Nat.lt_succ_of_lt hij)]
      rfl

theorem eventsFor_runJobs_ge (total : ℕ) (env : JobEnv) (j : ℕ) :
    ∀ (ps : List FsPath) (i : ℕ), i ≤ j →
      eventsFor j (runJobs total env i ps).events =
        match ps.get? (j - i) with
        | none => []
        | some p => (runJob j total p (env j)).1 := by
  intro ps
  induction ps with
  | nil => intro i _; simp [runJobs, eventsFor]
  | cons p ps ih =>
      intro i hij
      simp only [runJobs]
      rw [eventsFor_append]
      rcases Nat.eq_or_lt_of_le hij with heq | hlt
      · subst heq
        rw [eventsFor_runJob_self, eventsFor_runJobs_lt total env i ps (i + 1) (Nat.lt_succ_self i)]
        simp
      · rw [eventsFor_runJob_ne j i total (Nat.ne_of_gt hlt) p (env i), ih (i + 1) hlt]
        have hj : j - i = (j - (i + 1)) + 1 := by omega
        rw [hj]
        simp

theorem runJobs_oks_get (total : ℕ) (env : JobEnv) :
    ∀ (ps : List FsPath) (i m : ℕ),
      (runJobs total env i ps).oks.get? m =
        if m < ps.length then some (env (i + m)).isNone else none := by
  intro ps
  induction ps with
  | nil => intro i m; simp [runJobs]
  | cons p ps ih =>
      intro i m
      cases m with
      | zero =>
          simp only [runJobs, List.get?_cons_zero, List.length_cons]
          have hok : (runJob i total p (env i)).2.2 = (env i).isNone := by
            rcases henv : env i with _ | ⟨st, msg⟩
            · rfl
            · cases st <;> rfl
          simp [hok]
      | succ m =>
          simp only [runJobs, List.get?_cons_succ, List.length_cons]
          rw [ih (i + 1) m]
          have : i + 1 + m = i + (m + 1) := by omega
          rw [this]
          by_cases hm : m < ps.length <;> simp [hm, Nat.succ_lt_succ_iff]

theorem runJobs_errorDetail (total : ℕ) (env : JobEnv) (st : Step) (msg : Name) :
    ∀ (ps : List FsPath) (i k : ℕ), i ≤ k → k < i + ps.length →
      env k = some (st, msg) →
      ∃ p, ps.get? (k - i) = some p ∧
        OutLine.errorDetail p.base msg ∈ (runJobs total env i ps).output := by
  intro ps
  induction ps with
  | nil => intro i k h1 h2 _; simp at h2; omega
  | cons p ps ih =>
      intro i k h1 h2 henv
      rcases Nat.eq_or_lt_of_le h1 with heq | hlt
      · subst heq
        refine ⟨p, by simp, ?_⟩
        simp only [runJobs, List.mem_append]
        left
        rw [henv]
        cases st <;> simp [runJob]
      · have h2' : k < (i + 1) + ps.length := by
          simp only [List.length_cons] at h2; omega
        obtain ⟨q, hq, hmem⟩ := ih (i + 1) k hlt h2' henv
        refine ⟨q, ?_, ?_⟩
        · have : k - i = (k - (i + 1)) + 1 := by omega
          rw [this]; simpa using hq
        · simp only [runJobs, List.mem_append]
          right; exact hmem

theorem runJob_countP (idx total : ℕ) (p : FsPath) (je : Option (Step × Name))
    (q : Event → Bool) (hq : ∀ i f b, q (Event.openCall i f b) = false)
    (hq2 : ∀ i f b, q (Event.exportCall i f b) = false)
    (hq3 : ∀ i b, q (Event.closeCall i b) = false) :
    (runJob idx total p je).1.countP q = 0 := by
  rcases je with _ | ⟨st, msg⟩
  · simp [runJob, List.countP_cons, hq, hq2, hq3]
  · cases st <;> simp [runJob, List.countP_cons, hq, hq2, hq3]

theorem runJobs_countP (total : ℕ) (env : JobEnv) (q : Event → Bool)
    (hq : ∀ i f b, q (Event.openCall i f b) = false)
    (hq2 : ∀ i f b, q (Event.exportCall i f b) = false)
    (hq3 : ∀ i b, q (Event.closeCall i b) = false) :
    ∀ (ps : List FsPath) (i : ℕ), (runJobs total env i ps).events.countP q = 0 := by
  intro ps
  induction ps with
  | nil => intro i; simp [runJobs]
  | cons p ps ih =>
      intro i
      simp only [runJobs, List.countP_append]
      rw [runJob_countP i total p (env i) q hq hq2 hq3, ih (i + 1)]

theorem runJob_no_summary (idx total : ℕ) (p : FsPath) (je : Option (Step × Name)) :
    (runJob idx total p je).2.1.filter isSummaryLine = [] := by
  rcases je with _ | ⟨st, msg⟩
  · rfl
  · cases st <;> rfl

theorem runJobs_no_summary (total : ℕ) (env : JobEnv) :
    ∀ (ps : List FsPath) (i : ℕ),
      (runJobs total env i ps).output.filter isSummaryLine = [] := by
  intro ps
  induction ps with
  | nil => intro i; rfl
  | cons p ps ih =>
      intro i
      simp only [runJobs, List.filter_append]
      rw [runJob_no_summary i total p (env i), ih (i + 1)]
      rfl

theorem ensure_pywin32_ok (pe : PyEnv) :
    (∃ lns, ensure_pywin32 pe = .ok lns) ↔ pywinOK pe = true := by
  obtain ⟨i, ins, ia, e1, e2⟩ := pe
  cases i <;> cases ins <;> cases ia <;>
    simp [ensure_pywin32, pywinOK]

theorem filter_map_mk (dir : Name) (p : FsPath → Bool) (l : List Name) :
    (l.map (fun n => (⟨dir, n⟩ : FsPath))).filter p
      = (l.filter (fun n => p ⟨dir, n⟩)).map (fun n => (⟨dir, n⟩ : FsPath)) := by
  induction l with
  | nil => rfl
  | cons n ns ih =>
      simp only [List.map_cons, List.filter_cons]
      by_cases h : p ⟨dir, n⟩ = true
      · simp [h, ih]
      · simp only [Bool.not_eq_true] at h
        simp [h, ih]

theorem filter_filter_name (p q : Name → Bool) (l : List Name) :
    (l.filter p).filter q = l.filter (fun n => p n && q n) := by
  induction l with
  | nil => rfl
  | cons n ns ih =>
      simp only [List.filter_cons]
      by_cases hp : p n = true
      · by_cases hq : q n = true
        · simp [hp, hq, List.filter_cons, ih]
        · simp only [Bool.not_eq_true] at hq
          simp [hp, hq, List.filter_cons, ih]
      · simp only [Bool.not_eq_true] at hp
        simp [hp, ih]

theorem list_docx_files_eq_filter (dir : Name) (entries : List Name) :
    list_docx_files dir entries
      = (entries.filter discovered).map (fun n => (⟨dir, n⟩ : FsPath)) := by
  have hpat : normcase "*.docx".toList = '*' :: ".docx".toList := by decide
  have hlit : (".docx".toList).all (fun c => !(c == '*')) = true := by decide
  simp only [list_docx_files, globGlob, hpat, filter_map_mk, filter_filter_name]
  congr 1
  apply List.filter_congr
  intro n _
  rw [globMatch_star (".docx".toList) hlit (normcase n)]
  simp only [discovered]
  cases h1 : (['.'].isPrefixOf n) <;>
    cases h2 : decide (".docx".toList <:+ normcase n) <;>
      cases h3 : ("~$".toList.isPrefixOf n) <;> rfl

/-- C3 (corrected): discovery returns exactly the entries whose (lowercased)
name ends with `.docx`, excluding lock files (leading `~$`) and also
excluding hidden files (leading dot), non-recursively; and an empty
discovery result is a normal outcome: the run exits with code 0 after
reporting that no files were found. -/
theorem C3_discovery_exact (dir : Name) (entries : List Name) :
    list_docx_files dir entries
      = (entries.filter discovered).map (fun n => (⟨dir, n⟩ : FsPath)) ∧
    (list_docx_files dir entries = [] → ∀ pe env,
      (convert_all_docx_in_folder dir entries pe env).exitCode = 0 ∧
      OutLine.noFilesFound dir ∈ (convert_all_docx_in_folder dir entries pe env).output) := by
  refine ⟨list_docx_files_eq_filter dir entries, ?_⟩
  intro hnil pe env
  simp [convert_all_docx_in_folder, hnil]

/-- Witness for C3 at a concrete directory: `a.docx` and `b.DOCX` are kept,
the lock file `~$a.docx` and `c.txt` are excluded; and for an entry list
with no matches the run exits 0 reporting no files. -/
theorem C3_discovery_exact_witness :
    (list_docx_files "d".toList
        ["a.docx".toList, "~$a.docx".toList, "c.txt".toList, "b.DOCX".toList]
      = (["a.docx".toList, "~$a.docx".toList, "c.txt".toList, "b.DOCX".toList].filter
          discovered).map (fun n => (⟨"d".toList, n⟩ : FsPath))) ∧
    (convert_all_docx_in_folder "d".toList ["c.txt".toList]
        ⟨true, true, true, [], []⟩ (fun _ => none)).exitCode = 0 := by
  constructor
  · exact (C3_discovery_exact "d".toList _).1
  · exact ((C3_discovery_exact "d".toList ["c.txt".toList]).2 (by decide)
      ⟨true, true, true, [], []⟩ (fun _ => none)).1

/-- Counterexample for C3 as stated: the hidden file `.notes.docx` has the
`.docx` extension and is not a lock file, yet discovery returns the empty
list rather than that one matching file. -/
theorem C3_counterexample :
    list_docx_files "d".toList [".notes.docx".toList] = [] ∧
    (".docx".toList <:+ ".notes.docx".toList) ∧
    ¬ ("~$".toList <+: ".notes.docx".toList) := by
  refine ⟨by decide, ?_, by decide⟩
  exact ⟨".notes".toList, by decide⟩

/-- C10: discovery never returns a file whose base name begins with a dot:
the glob pattern `*.docx` does not match hidden names. -/
theorem C10_hidden_never_returned (dir : Name) (entries : List Name) (p : FsPath)
    (hmem : p ∈ list_docx_files dir entries) : p.base.head? ≠ some '.' := by
  rw [list_docx_files_eq_filter] at hmem
  obtain ⟨n, hn, rfl⟩ := List.mem_map.mp hmem
  have hd := (List.mem_filter.mp hn).2
  simp only [discovered, Bool.and_eq_true, Bool.not_eq_true'] at hd
  obtain ⟨⟨_, hhid⟩, _⟩ := hd
  cases n with
  | nil => simp
  | cons c cs =>
      intro hc
      simp only [List.head?_cons, Option.some.injEq] at hc
      subst hc
      simp [List.isPrefixOf] at hhid

/-- Witness for C10: in a directory with `ok.docx` and `.hidden.docx`,
the returned file is `ok.docx`, whose name does not begin with a dot. -/
theorem C10_hidden_never_returned_witness :
    ((⟨"d".toList, "ok.docx".toList⟩ : FsPath)
        ∈ list_docx_files "d".toList ["ok.docx".toList, ".hidden.docx".toList]) ∧
    ((⟨"d".toList, "ok.docx".toList⟩ : FsPath)).base.head? ≠ some '.' :=
  ⟨by decide, C10_hidden_never_returned "d".toList
    ["ok.docx".toList, ".hidden.docx".toList] _ (by decide)⟩

/-
Character-level facts about `Char.toLower`, needed to locate the extension
dot inside a discovered name.
-/

theorem toLower_eq_dot {c : Char} (h : c.toLower = '.') : c = '.' := by
  unfold Char.toLower at h
  simp only at h
  by_cases hg : c.toNat ≥ 65 ∧ c.toNat ≤ 90
  · rw [if_pos hg] at h
    exfalso
    obtain ⟨h65, h90⟩ := hg
    set n := c.toNat with hn
    interval_cases n <;> exact absurd h (by decide)
  · rwa [if_neg hg] at h

theorem splitext_append_docx (stem : Name) (e0 e1 e2 e3 e4 : Char)
    (h0 : e0 = '.') (h1 : e1 ≠ '.') (h2 : e2 ≠ '.') (h3 : e3 ≠ '.') (h4 : e4 ≠ '.')
    (hstem : ∃ c ∈ stem, c ≠ '.') :
    splitext (stem ++ [e0, e1, e2, e3, e4]) = (stem, [e0, e1, e2, e3, e4]) := by
  subst h0
  have d1 : (decide (e1 = '.')) = false := decide_eq_false h1
  have d2 : (decide (e2 = '.')) = false := decide_eq_false h2
  have d3 : (decide (e3 = '.')) = false := decide_eq_false h3
  have d4 : (decide (e4 = '.')) = false := decide_eq_false h4
  have hfind : (stem ++ ['.', e1, e2, e3, e4]).reverse.findIdx? (· = '.') = some 4 := by
    have hrev : (stem ++ ['.', e1, e2, e3, e4]).reverse
        = e4 :: e3 :: e2 :: e1 :: '.' :: stem.reverse := by
      simp
    rw [hrev]
    simp [List.findIdx?_cons, d1, d2, d3, d4]
  have hlen : (stem ++ ['.', e1, e2, e3, e4]).length = stem.length + 5 := by
    simp
  have hpos : (stem ++ ['.', e1, e2, e3, e4]).length - 1 - 4 = stem.length := by
    omega
  have htake : (stem ++ ['.', e1, e2, e3, e4]).take stem.length = stem :=
    List.take_left stem _
  have hdrop : (stem ++ ['.', e1, e2, e3, e4]).drop stem.length = ['.', e1, e2, e3, e4] :=
    List.drop_left stem _
  have hany : ((stem ++ ['.', e1, e2, e3, e4]).take stem.length).any (· ≠ '.') = true := by
    rw [htake]
    obtain ⟨c, hc, hcne⟩ := hstem
    exact List.any_eq_true.mpr ⟨c, hc, by simp [hcne]⟩
  have hany' : (stem.any (· ≠ '.')) = true := by
    rw [htake] at hany
    exact hany
  simp only [splitext, hfind, hpos, htake, hdrop, hany', if_true]

/-- C7: for every discovered input file, the derived output path is the
input path with its (case-insensitively `.docx`) extension replaced by
`.pdf`, in the same directory as the input file. -/
theorem C7_output_path (dir : Name) (entries : List Name) (p : FsPath)
    (hmem : p ∈ list_docx_files dir entries) :
    ∃ stem ext, p.base = stem ++ ext ∧ normcase ext = ".docx".toList ∧
      pdfPathOf p = ⟨p.dir, stem ++ ".pdf".toList⟩ := by
  rw [list_docx_files_eq_filter] at hmem
  obtain ⟨n, hn, rfl⟩ := List.mem_map.mp hmem
  have hd := (List.mem_filter.mp hn).2
  simp only [discovered, Bool.and_eq_true, Bool.not_eq_true', decide_eq_true_eq] at hd
  obtain ⟨⟨hsuf, hhid⟩, _⟩ := hd
  obtain ⟨u, hu⟩ := hsuf
  have hlenn : n.length = u.length + 5 := by
    have h := congrArg List.length hu
    simp only [List.length_append, normcase, List.length_map] at h
    have h5 : (".docx".toList).length = 5 := by decide
    rw [h5] at h
    omega
  have hnse : n = n.take u.length ++ n.drop u.length := (List.take_append_drop u.length n).symm
  have hext_nc : normcase (n.drop u.length) = ".docx".toList := by
    have hmapdrop : normcase (n.drop u.length) = (normcase n).drop u.length := by
      simp [normcase]
    rw [hmapdrop, ← hu, List.drop_left]
  have hextlen : (n.drop u.length).length = 5 := by
    have h := congrArg List.length hext_nc
    simp only [normcase, List.length_map] at h
    simpa using h
  obtain ⟨e0, e1, e2, e3, e4, hext5⟩ :
      ∃ a b c d e, n.drop u.length = [a, b, c, d, e] := by
    rcases hx : n.drop u.length with _ | ⟨a, _ | ⟨b, _ | ⟨c, _ | ⟨d, _ | ⟨e, rest⟩⟩⟩⟩⟩ <;>
      rw [hx] at hextlen <;> simp at hextlen
    exact ⟨a, b, c, d, e, by rw [hextlen]⟩
  rw [hext5] at hext_nc
  simp only [normcase, List.map_cons, List.map_nil] at hext_nc
  have he0 : e0.toLower = '.' := by injection hext_nc
  have hrest := hext_nc
  injection hrest with _ hrest
  injection hrest with he1 hrest
  injection hrest with he2 hrest
  injection hrest with he3 hrest
  injection hrest with he4 _
  have he0' : e0 = '.' := toLower_eq_dot he0
  have hne1 : e1 ≠ '.' := by intro h; rw [h] at he1; exact absurd he1 (by decide)
  have hne2 : e2 ≠ '.' := by intro h; rw [h] at he2; exact absurd he2 (by decide)
  have hne3 : e3 ≠ '.' := by intro h; rw [h] at he3; exact absurd he3 (by decide)
  have hne4 : e4 ≠ '.' := by intro h; rw [h] at he4; exact absurd he4 (by decide)
  have hstem_ne : ∃ c ∈ n.take u.length, c ≠ '.' := by
    rcases hs : n.take u.length with _ | ⟨c, rest⟩
    · exfalso
      rw [hs, hext5] at hnse
      simp only [List.nil_append] at hnse
      rw [hnse, he0'] at hhid
      simp [List.isPrefixOf] at hhid
    · have hcne : c ≠ '.' := by
        intro hcd
        rw [hs] at hnse
        rw [hnse, hcd] at hhid
        simp [List.isPrefixOf] at hhid
      exact ⟨c, by simp [hs], hcne⟩
  have hsplit := splitext_append_docx (n.take u.length) e0 e1 e2 e3 e4
    he0' hne1 hne2 hne3 hne4 hstem_ne
  refine ⟨n.take u.length, n.drop u.length, hnse, ?_, ?_⟩
  · rw [hext5]
    simp only [normcase, List.map_cons, List.map_nil]
    rw [he0', he1, he2, he3, he4]
    rfl
  · simp only [pdfPathOf]
    rw [← hext5] at hsplit
    rw [← hnse] at hsplit
    rw [hsplit]

/-- Witness for C7 at a concrete file `report.docx` in directory `d`. -/
theorem C7_output_path_witness :
    ∃ stem ext,
      ((⟨"d".toList, "report.docx".toList⟩ : FsPath)).base = stem ++ ext ∧
      normcase ext = ".docx".toList ∧
      pdfPathOf ⟨"d".toList, "report.docx".toList⟩
        = ⟨((⟨"d".toList, "report.docx".toList⟩ : FsPath)).dir, stem ++ ".pdf".toList⟩ :=
  C7_output_path "d".toList ["report.docx".toList] _ (by decide)

/-
Shape lemmas for whole runs.
-/

theorem run_nil (dir : Name) (entries : List Name) (pe : PyEnv) (env : JobEnv)
    (hfiles : list_docx_files dir entries = []) :
    convert_all_docx_in_folder dir entries pe env
      = ⟨[.noFilesFound dir, .pressEnter], [], 0, []⟩ := by
  simp [convert_all_docx_in_folder, hfiles]

theorem run_fatal (dir : Name) (entries : List Name) (pe : PyEnv) (env : JobEnv)
    (f : FsPath) (fs : List FsPath) (lns : List OutLine)
    (hfiles : list_docx_files dir entries = f :: fs)
    (herr : ensure_pywin32 pe = .error lns) :
    convert_all_docx_in_folder dir entries pe env
      = ⟨listingLines (f :: fs) ++ lns, [], 1, []⟩ := by
  simp [convert_all_docx_in_folder, hfiles, herr]

theorem run_normal (dir : Name) (entries : List Name) (pe : PyEnv) (env : JobEnv)
    (f : FsPath) (fs : List FsPath) (lns : List OutLine)
    (hfiles : list_docx_files dir entries = f :: fs)
    (hok : ensure_pywin32 pe = .ok lns) :
    convert_all_docx_in_folder dir entries pe env
      = ⟨listingLines (f :: fs) ++ lns ++ [.startingConversion]
           ++ (runJobs (f :: fs).length env 1 (f :: fs)).output ++ summaryLines (f :: fs),
         [.coInit, .dispatchWord] ++ (runJobs (f :: fs).length env 1 (f :: fs)).events
           ++ [.quitWord, .coUninit],
         0, (runJobs (f :: fs).length env 1 (f :: fs)).oks⟩ := by
  simp [convert_all_docx_in_folder, hfiles, hok]

theorem pywin_false_of_error (pe : PyEnv) (lns : List OutLine)
    (herr : ensure_pywin32 pe = .error lns) : pywinOK pe = false := by
  cases hpw : pywinOK pe
  · rfl
  · obtain ⟨l, hok⟩ := (ensure_pywin32_ok pe).mpr hpw
    rw [herr] at hok
    cases hok

theorem pywin_true_of_ok (pe : PyEnv) (lns : List OutLine)
    (hok : ensure_pywin32 pe = .ok lns) : pywinOK pe = true :=
  (ensure_pywin32_ok pe).mp ⟨lns, hok⟩

/-- C2: the engine is acquired at most once per run and, once acquired,
released exactly once, whatever the per-job outcomes: the counts of
`DispatchEx`, `CoInitialize`, `Quit` and `CoUninitialize` calls are all 1
when discovery is non-empty and the pywin32 bootstrap succeeds, and all 0
otherwise (in particular 0 when discovery returns no files). -/
theorem C2_engine_lifecycle (dir : Name) (entries : List Name) (pe : PyEnv) (env : JobEnv) :
    ((convert_all_docx_in_folder dir entries pe env).events.countP
        (fun e => e == Event.dispatchWord)
      = if (list_docx_files dir entries).isEmpty || !(pywinOK pe) then 0 else 1) ∧
    ((convert_all_docx_in_folder dir entries pe env).events.countP
        (fun e => e == Event.coInit)
      = if (list_docx_files dir entries).isEmpty || !(pywinOK pe) then 0 else 1) ∧
    ((convert_all_docx_in_folder dir entries pe env).events.countP
        (fun e => e == Event.quitWord)
      = if (list_docx_files dir entries).isEmpty || !(pywinOK pe) then 0 else 1) ∧
    ((convert_all_docx_in_folder dir entries pe env).events.countP
        (fun e => e == Event.coUninit)
      = if (list_docx_files dir entries).isEmpty || !(pywinOK pe) then 0 else 1) := by
  rcases hfiles : list_docx_files dir entries with _ | ⟨f, fs⟩
  · rw [run_nil dir entries pe env hfiles]
    simp
  · rcases heq : ensure_pywin32 pe with lns | lns
    · rw [run_fatal dir entries pe env f fs lns hfiles heq,
        pywin_false_of_error pe lns heq]
      simp
    · rw [run_normal dir entries pe env f fs lns hfiles heq,
        pywin_true_of_ok pe lns heq]
      refine ⟨?_, ?_, ?_, ?_⟩ <;>
        (simp only [List.countP_append, List.countP_cons, List.countP_nil,
          List.isEmpty_cons, Bool.not_true, Bool.or_false]
         rw [runJobs_countP _ env _ (by intro i g b; rfl) (by intro i g b; rfl)
           (by intro i b; rfl)]
         rfl)

/-- C6: the process exits non-zero exactly when the engine cannot be
obtained — the pywin32 bootstrap (one installation attempt allowed) fails
in a run that needs the engine; runs with failing jobs still exit 0. -/
theorem C6_exit_code (dir : Name) (entries : List Name) (pe : PyEnv) (env : JobEnv) :
    (convert_all_docx_in_folder dir entries pe env).exitCode ≠ 0 ↔
      (list_docx_files dir entries ≠ [] ∧ pywinOK pe = false) := by
  rcases hfiles : list_docx_files dir entries with _ | ⟨f, fs⟩
  · rw [run_nil dir entries pe env hfiles]
    simp
  · rcases heq : ensure_pywin32 pe with lns | lns
    · rw [run_fatal dir entries pe env f fs lns hfiles heq]
      simp [pywin_false_of_error pe lns heq]
    · rw [run_normal dir entries pe env f fs lns hfiles heq]
      simp [pywin_true_of_ok pe lns heq]

/-- C1: an exception in job `k` (at open, export or close) is caught and
reported with the file's base name and the error text; every job in range
still performs its engine calls; and for every other job `j ≠ k`, both its
engine calls and its outcome are identical to those of the run in which
job `k` succeeds. -/
theorem C1_per_job_isolation (dir : Name) (entries : List Name) (pe : PyEnv)
    (env : JobEnv) (k : ℕ) (st : Step) (msg : Name)
    (hpe : pywinOK pe = true)
    (henv : env k = some (st, msg))
    (hk1 : 1 ≤ k) (hk2 : k ≤ (list_docx_files dir entries).length) :
    (∃ p, (list_docx_files dir entries).get? (k - 1) = some p ∧
       OutLine.errorDetail p.base msg
         ∈ (convert_all_docx_in_folder dir entries pe env).output) ∧
    (∀ j, 1 ≤ j → j ≤ (list_docx_files dir entries).length →
       ∃ p b, Event.openCall j p b
         ∈ (convert_all_docx_in_folder dir entries pe env).events) ∧
    (∀ j, 1 ≤ j → j ≠ k →
       eventsFor j (convert_all_docx_in_folder dir entries pe env).events
         = eventsFor j (convert_all_docx_in_folder dir entries pe
             (Function.update env k none)).events ∧
       (convert_all_docx_in_folder dir entries pe env).oks.get? (j - 1)
         = (convert_all_docx_in_folder dir entries pe
             (Function.update env k none)).oks.get? (j - 1)) := by
  rcases hfiles : list_docx_files dir entries with _ | ⟨f, fs⟩
  · rw [hfiles] at hk2
    simp at hk2
    omega
  · rcases heq : ensure_pywin32 pe with lns | lns
    · rw [pywin_false_of_error pe lns heq] at hpe
      cases hpe
    · rw [hfiles] at hk2
      rw [run_normal dir entries pe env f fs lns hfiles heq,
        run_normal dir entries pe (Function.update env k none) f fs lns hfiles heq]
      refine ⟨?_, ?_, ?_⟩
      · obtain ⟨p, hget, hmem⟩ :=
          runJobs_errorDetail (f :: fs).length env st msg (f :: fs) 1 k hk1
            (by simp only [List.length_cons] at hk2 ⊢; omega) henv
        exact ⟨p, hget, by simp only [List.mem_append]; left; right; exact hmem⟩
      · intro j hj1 hj2
        have hjlt : j - 1 < (f :: fs).length := by
          simp only [List.length_cons] at hj2 ⊢; omega
        have hget : (f :: fs).get? (j - 1) = some ((f :: fs).get ⟨j - 1, hjlt⟩) :=
          List.get?_eq_get hjlt
        set p := (f :: fs).get ⟨j - 1, hjlt⟩ with hp
        have hef := eventsFor_runJobs_ge (f :: fs).length env j (f :: fs) 1 hj1
        rw [hget] at hef
        have hopen : ∃ b, Event.openCall j p b
            ∈ (runJob j (f :: fs).length p (env j)).1 := by
          rcases env j with _ | ⟨st', m⟩
          · exact ⟨true, by simp [runJob]⟩
          · cases st'
            · exact ⟨false, by simp [runJob]⟩
            · exact ⟨true, by simp [runJob]⟩
            · exact ⟨true, by simp [runJob]⟩
        obtain ⟨b, hb⟩ := hopen
        refine ⟨p, b, ?_⟩
        have : Event.openCall j p b
            ∈ eventsFor j (runJobs (f :: fs).length env 1 (f :: fs)).events := by
          rw [hef]; exact hb
        have hmem := List.mem_of_mem_filter this
        simp only [List.mem_append]
        left; right
        exact hmem
      · intro j hj1 hjk
        constructor
        · rw [eventsFor_append, eventsFor_append, eventsFor_append, eventsFor_append]
          have h1 : eventsFor j [Event.coInit, Event.dispatchWord] = [] := rfl
          have h2 : eventsFor j [Event.quitWord, Event.coUninit] = [] := rfl
          rw [h1, h2]
          have he1 := eventsFor_runJobs_ge (f :: fs).length env j (f :: fs) 1 hj1
          have he2 := eventsFor_runJobs_ge (f :: fs).length (Function.update env k none) j
            (f :: fs) 1 hj1
          rw [he1, he2, Function.update_noteq hjk]
        · rw [runJobs_oks_get, runJobs_oks_get, Function.update_noteq]
          intro heq'
          exact hjk (by omega)

/-- Witness for C1: two files, job 1 fails at export; the error is reported
with the file name and message, and the hypotheses hold at this input. -/
theorem C1_per_job_isolation_witness :
    (1 ≤ (list_docx_files "d".toList ["a.docx".toList, "b.docx".toList]).length) ∧
    ∃ p, (list_docx_files "d".toList ["a.docx".toList, "b.docx".toList]).get? 0 = some p ∧
      OutLine.errorDetail p.base "boom".toList
        ∈ (convert_all_docx_in_folder "d".toList ["a.docx".toList, "b.docx".toList]
            ⟨true, true, true, [], []⟩
            (fun n => if n = 1 then some (Step.exportDoc, "boom".toList) else none)).output :=
  ⟨by decide,
   (C1_per_job_isolation "d".toList ["a.docx".toList, "b.docx".toList]
     ⟨true, true, true, [], []⟩
     (fun n => if n = 1 then some (Step.exportDoc, "boom".toList) else none)
     1 Step.exportDoc "boom".toList (by decide) (by decide) (by decide) (by decide)).1⟩

/-- C8: when job `k` fails at export (after a successful open), no close
call is ever issued for job `k`; the document opened by that job is only
ever released by the run-level `Quit` at the end. -/
theorem C8_no_close_on_export_failure (dir : Name) (entries : List Name) (pe : PyEnv)
    (env : JobEnv) (k : ℕ) (msg : Name)
    (hpe : pywinOK pe = true)
    (henv : env k = some (Step.exportDoc, msg))
    (hk1 : 1 ≤ k) (hk2 : k ≤ (list_docx_files dir entries).length) :
    (∃ p, (list_docx_files dir entries).get? (k - 1) = some p ∧
       Event.openCall k p true ∈ (convert_all_docx_in_folder dir entries pe env).events) ∧
    (∀ b, Event.closeCall k b ∉ (convert_all_docx_in_folder dir entries pe env).events) ∧
    Event.quitWord ∈ (convert_all_docx_in_folder dir entries pe env).events := by
  rcases hfiles : list_docx_files dir entries with _ | ⟨f, fs⟩
  · rw [hfiles] at hk2
    simp at hk2
    omega
  · rcases heq : ensure_pywin32 pe with lns | lns
    · rw [pywin_false_of_error pe lns heq] at hpe
      cases hpe
    · rw [hfiles] at hk2
      rw [run_normal dir entries pe env f fs lns hfiles heq]
      have hklt : k - 1 < (f :: fs).length := by
        simp only [List.length_cons] at hk2 ⊢; omega
      have hget : (f :: fs).get? (k - 1) = some ((f :: fs).get ⟨k - 1, hklt⟩) :=
        List.get?_eq_get hklt
      set p := (f :: fs).get ⟨k - 1, hklt⟩ with hp
      have hef := eventsFor_runJobs_ge (f :: fs).length env k (f :: fs) 1 hk1
      rw [hget, henv] at hef
      refine ⟨⟨p, hget, ?_⟩, ?_, ?_⟩
      · have hin : Event.openCall k p true
            ∈ eventsFor k (runJobs (f :: fs).length env 1 (f :: fs)).events := by
          rw [hef]; simp [runJob]
        have := List.mem_of_mem_filter hin
        simp only [List.mem_append]
        left; right
        exact this
      · intro b hb
        simp only [List.mem_append] at hb
        rcases hb with (hb | hb) | hb
        · simp at hb
        · have hinf : Event.closeCall k b
              ∈ eventsFor k (runJobs (f :: fs).length env 1 (f :: fs)).events :=
            List.mem_filter.mpr ⟨hb, by simp [eventIdx]⟩
          rw [hef] at hinf
          simp [runJob] at hinf
        · simp at hb
      · simp

/-- Witness for C8: two files, job 2 fails at export; its document is
opened but never closed. -/
theorem C8_no_close_on_export_failure_witness :
    (2 ≤ (list_docx_files "d".toList ["a.docx".toList, "b.docx".toList]).length) ∧
    ∀ b, Event.closeCall 2 b
      ∉ (convert_all_docx_in_folder "d".toList ["a.docx".toList, "b.docx".toList]
          ⟨true, true, true, [], []⟩
          (fun n => if n = 2 then some (Step.exportDoc, "busy".toList) else none)).events :=
  ⟨by decide,
   (C8_no_close_on_export_failure "d".toList ["a.docx".toList, "b.docx".toList]
     ⟨true, true, true, [], []⟩
     (fun n => if n = 2 then some (Step.exportDoc, "busy".toList) else none)
     2 "busy".toList (by decide) (by decide) (by decide) (by decide)).2.1⟩

/-- C9: when job `k` fails at close, the export has already succeeded (the
output PDF was produced) and yet the job's outcome is failed and the error
is reported; a failed job does not imply that no output file was created. -/
theorem C9_close_failure_still_reported (dir : Name) (entries : List Name) (pe : PyEnv)
    (env : JobEnv) (k : ℕ) (msg : Name)
    (hpe : pywinOK pe = true)
    (henv : env k = some (Step.closeDoc, msg))
    (hk1 : 1 ≤ k) (hk2 : k ≤ (list_docx_files dir entries).length) :
    (∃ p, (list_docx_files dir entries).get? (k - 1) = some p ∧
       Event.exportCall k (pdfPathOf p) true
         ∈ (convert_all_docx_in_folder dir entries pe env).events ∧
       OutLine.errorDetail p.base msg
         ∈ (convert_all_docx_in_folder dir entries pe env).output) ∧
    (convert_all_docx_in_folder dir entries pe env).oks.get? (k - 1) = some false := by
  rcases hfiles : list_docx_files dir entries with _ | ⟨f, fs⟩
  · rw [hfiles] at hk2
    simp at hk2
    omega
  · rcases heq : ensure_pywin32 pe with lns | lns
    · rw [pywin_false_of_error pe lns heq] at hpe
      cases hpe
    · rw [hfiles] at hk2
      rw [run_normal dir entries pe env f fs lns hfiles heq]
      have hklt : k - 1 < (f :: fs).length := by
        simp only [List.length_cons] at hk2 ⊢; omega
      have hget : (f :: fs).get? (k - 1) = some ((f :: fs).get ⟨k - 1, hklt⟩) :=
        List.get?_eq_get hklt
      set p := (f :: fs).get ⟨k - 1, hklt⟩ with hp
      have hef := eventsFor_runJobs_ge (f :: fs).length env k (f :: fs) 1 hk1
      rw [hget, henv] at hef
      constructor
      · refine ⟨p, hget, ?_, ?_⟩
        · have hin : Event.exportCall k (pdfPathOf p) true
              ∈ eventsFor k (runJobs (f :: fs).length env 1 (f :: fs)).events := by
            rw [hef]; simp [runJob]
          have := List.mem_of_mem_filter hin
          simp only [List.mem_append]
          left; right
          exact this
        · obtain ⟨q, hq, hqmem⟩ :=
            runJobs_errorDetail (f :: fs).length env Step.closeDoc msg (f :: fs) 1 k hk1
              (by simp only [List.length_cons] at hk2 ⊢; omega) henv
          rw [hget] at hq
          have hqp : q = p := by
            injection hq with h
            exact h.symm
          subst hqp
          simp only [List.mem_append]
          left; right
          exact hqmem
      · rw [runJobs_oks_get]
        have hidx : 1 + (k - 1) = k := by omega
        rw [if_pos hklt, hidx, henv]
        rfl

/-- Witness for C9: one file whose close fails; the export call succeeded
but the job outcome is recorded as failed. -/
theorem C9_close_failure_still_reported_witness :
    (1 ≤ (list_docx_files "d".toList ["a.docx".toList]).length) ∧
    (convert_all_docx_in_folder "d".toList ["a.docx".toList]
        ⟨true, true, true, [], []⟩
        (fun _ => some (Step.closeDoc, "close failed".toList))).oks.get? 0 = some false :=
  ⟨by decide,
   (C9_close_failure_still_reported "d".toList ["a.docx".toList]
     ⟨true, true, true, [], []⟩
     (fun _ => some (Step.closeDoc, "close failed".toList))
     1 "close failed".toList (by decide) (by decide) (by decide) (by decide)).2⟩

/-- Counterexample for C4 as stated: after job 29 of 50 the script prints
57, but floor(29/50 × 100) = 58 — the float evaluation
`int(29 / 50 * 100)` loses the exact value. -/
theorem C4_counterexample : pyPercent 29 50 = 57 ∧ 100 * 29 / 50 = 58 := by decide

set_option maxRecDepth 100000 in
set_option maxHeartbeats 4000000 in
/-- C4 (amended): the percent printed after job `k` of `N` (the same value
on the success and the failure branch) is the binary64 evaluation
`int(k / N * 100)`, which agrees with floor(k/N × 100) for every batch
size N < 50 but not in general (it is one less at k = 29, N = 50). -/
theorem C4_progress_formula :
    (∀ (idx total : ℕ) (p : FsPath) (je : Option (Step × Name)) (c : ℕ),
        (OutLine.statusOK c ∈ (runJob idx total p je).2.1 ∨
         OutLine.statusERROR c ∈ (runJob idx total p je).2.1) → c = pyPercent idx total) ∧
    (∀ N, N < 50 → ∀ k, k < N + 1 → 0 < k → pyPercent k N = 100 * k / N) := by
  constructor
  · intro idx total p je c h
    rcases je with _ | ⟨st, m⟩
    · rcases h with h | h <;> simp [runJob] at h
      exact h
    · cases st <;> (rcases h with h | h <;> simp [runJob] at h) <;> exact h
  · decide

/-- Witness for C4 (amended) at k = 3, N = 10: the printed percent is 30. -/
theorem C4_progress_formula_witness :
    (10 < 50 ∧ 3 < 10 + 1 ∧ 0 < 3) ∧ pyPercent 3 10 = 100 * 3 / 10 :=
  ⟨by decide, C4_progress_formula.2 10 (by decide) 3 (by decide) (by decide)⟩

/-- Counterexample for C5 as stated: two runs over the same two files, one
with both jobs succeeding and one with job 2 failing, print exactly the
same final summary, even though their success/failure counts differ — the
summary cannot be reporting the aggregate outcome counts. -/
theorem C5_counterexample :
    ((convert_all_docx_in_folder "d".toList ["a.docx".toList, "b.docx".toList]
        ⟨true, true, true, [], []⟩
        (fun n => if n = 2 then some (Step.exportDoc, "locked".toList) else none)).output.filter
          isSummaryLine
      = (convert_all_docx_in_folder "d".toList ["a.docx".toList, "b.docx".toList]
          ⟨true, true, true, [], []⟩ (fun _ => none)).output.filter isSummaryLine) ∧
    ((convert_all_docx_in_folder "d".toList ["a.docx".toList, "b.docx".toList]
        ⟨true, true, true, [], []⟩
        (fun n => if n = 2 then some (Step.exportDoc, "locked".toList) else none)).oks.count false
      ≠ (convert_all_docx_in_folder "d".toList ["a.docx".toList, "b.docx".toList]
          ⟨true, true, true, [], []⟩ (fun _ => none)).oks.count false) := by
  decide

/-- C5 (amended): the final summary block is independent of the per-job
outcomes — it is a fixed completion message (plus the single output file
name when exactly one file was found), and reports no success or failure
counts. -/
theorem C5_summary_outcome_independent (dir : Name) (entries : List Name) (pe : PyEnv)
    (env env' : JobEnv) :
    (convert_all_docx_in_folder dir entries pe env).output.filter isSummaryLine
      = (convert_all_docx_in_folder dir entries pe env').output.filter isSummaryLine := by
  rcases hfiles : list_docx_files dir entries with _ | ⟨f, fs⟩
  · rw [run_nil dir entries pe env hfiles, run_nil dir entries pe env' hfiles]
  · rcases heq : ensure_pywin32 pe with lns | lns
    · rw [run_fatal dir entries pe env f fs lns hfiles heq,
        run_fatal dir entries pe env' f fs lns hfiles heq]
    · rw [run_normal dir entries pe env f fs lns hfiles heq,
        run_normal dir entries pe env' f fs lns hfiles heq]
      simp only [List.filter_append]
      rw [runJobs_no_summary (f :: fs).length env (f :: fs) 1,
        runJobs_no_summary (f :: fs).length env' (f :: fs) 1]
